import Mathlib

/-!
# Verification of the target-size search in `compress_pdf.py`

This development embeds the two search operations of `PDFCompressor`
(`compress_to_target_size` and `compress_with_multiple_attempts_image_only`)
from `src/compress_pdf.py` as pure Lean functions over an explicit
filesystem model, and proves or refutes the specified properties of the
search controller: fast path, tolerance-band acceptance, best-effort
fallback, grid selection, and candidate cleanup.

File sizes (megabytes, `os.path.getsize(p) / 1024**2`) are modelled as
rationals.  The underlying PDF codecs (PyMuPDF, pdf2image/PIL) are
environment collaborators: each trial's observable effect on the output
directory is an environment datum, exactly as the spec treats transforms
as opaque lossy operations with a measured result size.
-/

/-- The file paths touched by one search invocation.  The concrete names in
the source are timestamped (`compressed_{target}MB_{ts}.pdf` etc.), so they
are collision-free across runs; we model each role as a constructor:

* `input`    — the input PDF (`input_path`);
* `output`   — `compressed_{target}MB_{ts}.pdf`, the final output path
  (`output_path` in `compress_to_target_size`, `final_output_path` in
  `compress_with_multiple_attempts_image_only`);
* `tmp`      — `output_path.with_suffix(".tmp.pdf")`, the scratch path of
  the strategy loop (note: a *different* path from `output`);
* `best i`   — `output_path.with_suffix('.best_{strategy_name}.pdf')`; the
  fifteen strategy names are pairwise distinct, so the catalog index `i`
  is a faithful key;
* `attempt i` — `{base}_attempt_{i:02d}_w{w}_q{q}.pdf`, the unique
  candidate path of grid attempt `i` (indices are distinct, so `i` is a
  faithful key). -/
inductive FPath where
  | input : FPath
  | output : FPath
  | tmp : FPath
  | best : Nat → FPath
  | attempt : Nat → FPath
deriving DecidableEq, Repr

/-- The output directory: an association list from paths to file sizes in
MB.  A path "exists" iff it has a recorded size. -/
abbrev FS : Type := List (FPath × ℚ)

/-- Models `os.path.getsize` in MB (`get_file_size_mb`), returning `none` when the
path does not exist (in Python: `FileNotFoundError`). -/
def fsSize : FS → FPath → Option ℚ
  | [], _ => none
  | (q, s) :: fs, p => if q = p then some s else fsSize fs p

/-- Delete a file (`Path.unlink`). -/
def fsRemove : FS → FPath → FS
  | [], _ => []
  | (q, s) :: fs, p => if q = p then fsRemove fs p else (q, s) :: fsRemove fs p

/-- Write (or overwrite) a file of size `s` at `p`. -/
def fsWrite (fs : FS) (p : FPath) (s : ℚ) : FS := (p, s) :: fsRemove fs p

/-- Models `Path.exists()`. -/
def fsExists (fs : FS) (p : FPath) : Bool := (fsSize fs p).isSome

/-- Models `shutil.move(src, dst)`: rename `src` to `dst`, replacing `dst`.
The source only calls it on existing files; on a missing source we leave
the filesystem unchanged. -/
def fsMove (fs : FS) (src dst : FPath) : FS :=
  match fsSize fs src with
  | some s => fsWrite (fsRemove fs src) dst s
  | none => fs

/-- Environment behaviour of one `compress_pdf_images(input, out, w, q)`
call (src/compress_pdf.py lines 75-110).  The body converts the input to
page images, resizes them, and saves them as a single PDF at `out`,
returning `True`; every raised exception is caught internally and turned
into `False`.

* `pages n s` — `convert_from_path` yields `n` page images and, when
  `n > 0`, saving them produces a file of size `s` MB at `out`.  When
  `n = 0` the guard `if compressed_images:` skips the save, so nothing is
  written (`s` is unused) — yet the function still returns `True`.
* `convFail` — `convert_from_path` (or the resize loop) raises before any
  write; the handler returns `False` and no file exists at `out`.
* `saveFail w` — the final `save` raises midway; the handler returns
  `False`, and `w = some s` records a partial file of size `s` left at
  `out` (`w = none` if nothing was flushed). -/
inductive ImgEnv where
  | pages : Nat → ℚ → ImgEnv
  | convFail : ImgEnv
  | saveFail : Option ℚ → ImgEnv
deriving DecidableEq, Repr

/-- Embeds `PDFCompressor.compress_pdf_images` (lines 75-110): returns the
success flag together with the updated output directory. -/
def compress_pdf_images (env : ImgEnv) (fs : FS) (out : FPath) : Bool × FS :=
  match env with
  | .pages 0 _ => (true, fs)
  | .pages (_ + 1) s => (true, fsWrite fs out s)
  | .convFail => (false, fs)
  | .saveFail none => (false, fs)
  | .saveFail (some s) => (false, fsWrite fs out s)

/-- One entry of `created_files` (line 333): the attempt index (standing
for the unique candidate path), the measured size, and the
`(max_width, quality)` pair. -/
structure Candidate where
  idx : Nat
  size : ℚ
  width : Nat
  quality : Nat
deriving DecidableEq, Repr

/-- Loop state of `compress_with_multiple_attempts_image_only`:
the output directory, `created_files`, `best_file` (as an attempt index),
`best_size` (initialised to `0`, line 310), the indices for which the
advisory "very close to target" message (line 344) was printed, and an
instrumentation counter of loop iterations entered. -/
structure GState where
  fs : FS
  created : List Candidate
  bestIdx : Option Nat
  bestSize : ℚ
  closeLog : List Nat
  attempts : Nat
deriving Repr

/-- How a search call ends: `returned p` models `return p`;
`inputNotFound` models the `FileNotFoundError` from statting a missing
input; `noViableResult` models `raise Exception(...)` at the end of
either search (lines 221 and 405). -/
inductive Outcome where
  | returned : FPath → Outcome
  | inputNotFound : Outcome
  | noViableResult : Outcome
deriving DecidableEq, Repr

/-- Result of a whole grid search call. -/
structure GRun where
  fs : FS
  outcome : Outcome
  attempts : Nat
  created : List Candidate
  bestIdx : Option Nat
  bestSize : ℚ
  closeLog : List Nat
deriving Repr

/-- The body of the grid loop for attempt `n` with parameters
`wq = (max_width, quality)` (lines 316-350).  The trial runs
`compress_pdf_images` into the unique path `attempt n`; if it returned
`True` *and* the file exists, the candidate is recorded, and it becomes
the new best iff `size <= target and size > best_size` (line 337).  The
2%-tolerance test (line 343) only prints a message, recorded in
`closeLog`.  The surrounding `try/except` (line 349) absorbs exceptions;
no modelled operation in the body raises. -/
def gridStep (target tol : ℚ) (env : Nat → ImgEnv) (n : Nat) (wq : Nat × Nat)
    (st0 : GState) : GState :=
  let st := { st0 with attempts := st0.attempts + 1 }
  let res := compress_pdf_images (env n) st.fs (.attempt n)
  if res.1 && fsExists res.2 (.attempt n) then
    let cs := (fsSize res.2 (.attempt n)).getD 0
    let created := st.created ++ [⟨n, cs, wq.1, wq.2⟩]
    if cs ≤ target ∧ st.bestSize < cs then
      let st1 := { st with fs := res.2, created := created,
                           bestIdx := some n, bestSize := cs }
      if target - tol ≤ cs then { st1 with closeLog := st1.closeLog ++ [n] }
      else st1
    else { st with fs := res.2, created := created }
  else { st with fs := res.2 }

/-- Embeds `for i, (max_width, quality) in enumerate(compression_params, 1)`:
the grid loop, indexed from `n`.  There is no `break` or `return` in the
loop body, so it always consumes the whole list. -/
def gridLoop (target tol : ℚ) (env : Nat → ImgEnv) :
    Nat → List (Nat × Nat) → GState → GState
  | _, [], st => st
  | n, wq :: ps, st =>
    gridLoop target tol env (n + 1) ps (gridStep target tol env n wq st)

/-- Stable insertion of a candidate into a list sorted by decreasing size:
the new element goes after every element of size `≥` its own. -/
def insertDesc (c : Candidate) : List Candidate → List Candidate
  | [] => [c]
  | d :: ds => if d.size < c.size then c :: d :: ds else d :: insertDesc c ds

/-- Embeds `created_files.sort(key=lambda x: x[1], reverse=True)` (line 353):
stable sort by decreasing size. -/
def sortDesc : List Candidate → List Candidate
  | [] => []
  | c :: cs => insertDesc c (sortDesc cs)

/-- The cleanup loop on the success path (lines 379-382): delete every
recorded candidate other than the best one, guarded by `exists()`. -/
def removeOthers (j : Nat) : List Candidate → FS → FS
  | [], fs => fs
  | c :: cs, fs =>
    removeOthers j cs
      (if c.idx ≠ j ∧ fsExists fs (.attempt c.idx) then
        fsRemove fs (.attempt c.idx)
      else fs)

/-- The cleanup loop on the failure path (lines 401-403): delete every
recorded candidate, guarded by `exists()`. -/
def removeAll : List Candidate → FS → FS
  | [], fs => fs
  | c :: cs, fs =>
    removeAll cs
      (if fsExists fs (.attempt c.idx) then fsRemove fs (.attempt c.idx)
      else fs)

/-- Lines 352-405: sort the recorded candidates, then either promote the
best file to `final_output_path` (`shutil.move`, line 373) and delete the
others, or — when `best_file` is still `None` — delete everything and
raise `Exception("No successful compression achieved")`. -/
def gridFinish (st : GState) : GRun :=
  let sorted := sortDesc st.created
  match st.bestIdx with
  | some j =>
    let fs1 := fsMove st.fs (.attempt j) .output
    ⟨removeOthers j sorted fs1, .returned .output, st.attempts, sorted,
      some j, st.bestSize, st.closeLog⟩
  | none =>
    ⟨removeAll sorted st.fs, .noViableResult, st.attempts, sorted,
      none, st.bestSize, st.closeLog⟩

/-- The fixed `(max_width, quality)` table of
`compress_with_multiple_attempts_image_only` (lines 269-306). -/
def compression_params : List (Nat × Nat) :=
  [(2000, 100), (2000, 95), (1900, 90), (1800, 85), (1700, 80),
   (1600, 95), (1600, 90), (1600, 85), (1600, 80),
   (1500, 95), (1500, 90), (1500, 85), (1500, 80),
   (1400, 95), (1400, 90), (1400, 85), (1400, 80),
   (1300, 85), (1300, 80),
   (1200, 90), (1200, 85), (1200, 80), (1200, 75),
   (1100, 85), (1100, 80),
   (1000, 90), (1000, 85), (1000, 80), (1000, 75),
   (900, 85), (900, 80), (800, 85), (800, 80),
   (700, 80), (600, 75), (500, 70)]

/-- The grid search with an explicit tolerance argument (the source fixes
`tol = target * 0.02`, line 311; we expose it to state that it is
advisory only). -/
def gridRunWith (target tol : ℚ) (env : Nat → ImgEnv) (fs : FS) : GRun :=
  match fsSize fs .input with
  | none => ⟨fs, .inputNotFound, 0, [], none, 0, []⟩
  | some inputSize =>
    if inputSize ≤ target then ⟨fs, .returned .input, 0, [], none, 0, []⟩
    else gridFinish (gridLoop target tol env 1 compression_params
      ⟨fs, [], none, 0, [], 0⟩)

/-- Embeds `PDFCompressor.compress_with_multiple_attempts_image_only`
(lines 251-405): fast path when the input is already at most the target
(lines 255-257), otherwise the exhaustive grid loop followed by
selection and cleanup.  `env` gives the behaviour of each attempt's
`compress_pdf_images` call. -/
def compress_with_multiple_attempts_image_only (target : ℚ)
    (env : Nat → ImgEnv) (fs : FS) : GRun :=
  gridRunWith target (target * (2 / 100)) env fs

/-- Environment behaviour of one catalog entry's `compress_func()` in
`compress_to_target_size` (lines 130-161).  Every lambda in the
`strategies` list passes `output_path` — not the scratch path — to the
underlying codec, so a trial's only filesystem effect is at `output`:

* `completes w` — the call returns normally; `w = some s` means a file of
  size `s` MB now sits at `output_path` (`compress_pdf_basic` /
  `compress_pdf_pymupdf` saving, or `compress_pdf_images` succeeding);
  `w = none` means nothing was written (`compress_pdf_images` returning
  `False` with no partial file, or converting zero pages — its boolean
  result is discarded by the loop).
* `raises w` — the call raises (caught at line 205); `w = some s` records
  a partial file of size `s` left at `output_path` by an interrupted
  save, `w = none` a failure before any write. -/
inductive STrial where
  | completes : Option ℚ → STrial
  | raises : Option ℚ → STrial
deriving DecidableEq, Repr

/-- Loop state of `compress_to_target_size`: the output directory,
`best_result` (as a catalog index naming the `.best_...pdf` path),
`best_size` (`float("inf")` initially, modelled as `none`), and an
instrumentation counter of catalog entries entered. -/
structure SState where
  fs : FS
  bestIdx : Option Nat
  bestSize : Option ℚ
  attempts : Nat
deriving Repr

/-- Compares `current_size < best_size` where `best_size` starts at
`float("inf")`, modelled as `none`. -/
def ltInf (c : ℚ) : Option ℚ → Bool
  | none => true
  | some b => decide (c < b)

/-- Result of one strategy-loop iteration: continue with the next entry,
`break` out of the loop (line 200), or `return output_path` (line 187). -/
inductive SStep where
  | cont : SState → SStep
  | brk : SState → SStep
  | ret : SState → SStep

/-- The body of the strategy loop for catalog entry `i` (lines 167-208).
`temp_output = output_path.with_suffix(".tmp.pdf")` (line 172) is a
distinct path from `output_path`; the entry's `compress_func()` acts on
`output_path` (see `STrial`).  On success the loop inspects `tmp`:
within the 5% band it is moved to `output` and returned; if smaller than
the best so far, the previous best file is unlinked and `tmp` is moved to
the entry's `.best` path, breaking once within 10% above target;
otherwise `tmp` is unlinked.  The `except` handler (lines 205-208)
unlinks `tmp` if it exists and continues. -/
def stratStep (target tol : ℚ) (i : Nat) (tr : STrial) (st0 : SState) : SStep :=
  let st := { st0 with attempts := st0.attempts + 1 }
  match tr with
  | .raises w =>
    let fs1 := match w with
      | some s => fsWrite st.fs .output s
      | none => st.fs
    let fs2 := if fsExists fs1 .tmp then fsRemove fs1 .tmp else fs1
    .cont { st with fs := fs2 }
  | .completes w =>
    let fs1 := match w with
      | some s => fsWrite st.fs .output s
      | none => st.fs
    match fsSize fs1 .tmp with
    | none => .cont { st with fs := fs1 }
    | some cs =>
      if cs ≤ target ∧ target - tol ≤ cs then
        .ret { st with fs := fsMove fs1 .tmp .output }
      else if ltInf cs st.bestSize then
        let fs2 := match st.bestIdx with
          | some j => if fsExists fs1 (.best j) then fsRemove fs1 (.best j)
                      else fs1
          | none => fs1
        let fs3 := fsMove fs2 .tmp (.best i)
        let st1 := { st with fs := fs3, bestIdx := some i, bestSize := some cs }
        if cs ≤ target * (11 / 10) then .brk st1 else .cont st1
      else
        .cont { st with fs := fsRemove fs1 .tmp }

/-- Embeds `for strategy_name, compress_func in strategies:` — the strategy loop
over the catalog entries (indexed in catalog order), stopping on `break`
or an early `return`.  The left summand means the loop fell through to
the promotion code after line 210; the right summand means line 187
returned `output_path` directly. -/
def stratLoop (target tol : ℚ) : Nat → List STrial → SState → SState ⊕ SState
  | _, [], st => .inl st
  | i, tr :: rest, st =>
    match stratStep target tol i tr st with
    | .cont st1 => stratLoop target tol (i + 1) rest st1
    | .brk st1 => .inl st1
    | .ret st1 => .inr st1

/-- Result of a whole strategy-mode search call. -/
structure SRun where
  fs : FS
  outcome : Outcome
  attempts : Nat
  bestIdx : Option Nat
  bestSize : Option ℚ
deriving Repr

/-- Embeds `PDFCompressor.compress_to_target_size` (lines 112-221): fast path
when the input is already at most the target (lines 116-118); otherwise
the catalog loop with 5% tolerance band (line 165), followed by
promotion of the best result if one exists (lines 211-219) or
`raise Exception("All compression strategies failed")` (line 221).
`trials` gives the environment behaviour of each catalog entry's
`compress_func`, in catalog order. -/
def compress_to_target_size (target : ℚ) (trials : List STrial) (fs : FS) :
    SRun :=
  match fsSize fs .input with
  | none => ⟨fs, .inputNotFound, 0, none, none⟩
  | some inputSize =>
    if inputSize ≤ target then ⟨fs, .returned .input, 0, none, none⟩
    else
      let tol := target * (5 / 100)
      match stratLoop target tol 0 trials ⟨fs, none, none, 0⟩ with
      | .inr st => ⟨st.fs, .returned .output, st.attempts, st.bestIdx, st.bestSize⟩
      | .inl st =>
        match st.bestIdx with
        | some j =>
          if fsExists st.fs (.best j) then
            ⟨fsMove st.fs (.best j) .output, .returned .output, st.attempts,
              st.bestIdx, st.bestSize⟩
          else ⟨st.fs, .noViableResult, st.attempts, st.bestIdx, st.bestSize⟩
        | none => ⟨st.fs, .noViableResult, st.attempts, st.bestIdx, st.bestSize⟩

/-- The candidates the grid loop records in `created_files`, read off from
the environment: attempt `n` is recorded exactly when its
`compress_pdf_images` call returns `True` and wrote a file, i.e. when it
converted at least one page. -/
def recFrom (env : Nat → ImgEnv) : Nat → List (Nat × Nat) → List Candidate
  | _, [] => []
  | n, wq :: ps =>
    match env n with
    | .pages (_ + 1) s => ⟨n, s, wq.1, wq.2⟩ :: recFrom env (n + 1) ps
    | _ => recFrom env (n + 1) ps

/-- The successful candidates of one grid search over the fixed table. -/
def recordedGrid (env : Nat → ImgEnv) : List Candidate :=
  recFrom env 1 compression_params

/-- One update of `(best_file, best_size)` by a recorded candidate
(line 337): it becomes the best iff `size <= target and size > best_size`
(strict, so ties keep the earlier candidate). -/
def bestStep (target : ℚ) (b : Option Nat × ℚ) (c : Candidate) :
    Option Nat × ℚ :=
  if c.size ≤ target ∧ b.2 < c.size then (some c.idx, c.size) else b

/-- Folds `bestStep` over a list of recorded candidates, yielding the
final `(best_file, best_size)`. -/
def bestFold (target : ℚ) : List Candidate → Option Nat × ℚ → Option Nat × ℚ
  | [], b => b
  | c :: cs, b => bestFold target cs (bestStep target b c)

/-- Maximum recorded size not exceeding `target`, starting from `m`. -/
def maxUnderFrom (target : ℚ) : List Candidate → ℚ → ℚ
  | [], m => m
  | c :: cs, m => maxUnderFrom target cs (if c.size ≤ target then max m c.size else m)

/-- Maximum recorded size not exceeding `target` (`0` if there is none). -/
def maxUnder (target : ℚ) (l : List Candidate) : ℚ := maxUnderFrom target l 0

/-- The first recorded candidate (in grid order) attaining the maximum
size under the target — the deterministic tie-break of line 337. -/
def firstAtMax (target : ℚ) (l : List Candidate) : Option Nat :=
  (l.find? fun c =>
    decide (c.size ≤ target) && decide (c.size = maxUnder target l)).map
    Candidate.idx

/-- The grid-loop state without the advisory log. -/
structure GCore where
  fs : FS
  created : List Candidate
  bestIdx : Option Nat
  bestSize : ℚ
  attempts : Nat
deriving Repr

/-- Forget the advisory "very close to target" log. -/
def stripSt (st : GState) : GCore :=
  ⟨st.fs, st.created, st.bestIdx, st.bestSize, st.attempts⟩

/-- Behaves as `gridStep` restricted to the tolerance-free part of the
state. -/
def stepCore (target : ℚ) (env : Nat → ImgEnv) (n : Nat) (wq : Nat × Nat)
    (st0 : GCore) : GCore :=
  let st := { st0 with attempts := st0.attempts + 1 }
  let res := compress_pdf_images (env n) st.fs (.attempt n)
  if res.1 && fsExists res.2 (.attempt n) then
    let cs := (fsSize res.2 (.attempt n)).getD 0
    let created := st.created ++ [⟨n, cs, wq.1, wq.2⟩]
    if cs ≤ target ∧ st.bestSize < cs then
      { st with fs := res.2, created := created, bestIdx := some n, bestSize := cs }
    else { st with fs := res.2, created := created }
  else { st with fs := res.2 }

/-- A whole grid run without the advisory log. -/
def gridStrip (r : GRun) : FS × Outcome × Nat × List Candidate × Option Nat × ℚ :=
  (r.fs, r.outcome, r.attempts, r.created, r.bestIdx, r.bestSize)

/-- Concrete grid environment: attempts 1-3 succeed with sizes 6, 4, 4 MB
(a tie under the 5 MB target), every other attempt fails in conversion. -/
def envGridTie : Nat → ImgEnv := fun i =>
  if i = 1 then .pages 1 6
  else if i = 2 then .pages 1 4
  else if i = 3 then .pages 1 4
  else .convFail

/-- Concrete grid environment: attempt 1 succeeds at 7 MB (over target 5),
attempt 2 fails during saving and leaves a 3 MB partial file, every other
attempt fails in conversion. -/
def envGridLeftover : Nat → ImgEnv := fun i =>
  if i = 1 then .pages 1 7
  else if i = 2 then .saveFail (some 3)
  else .convFail

/-- Concrete grid environment: attempt 1 succeeds at 7 MB (over target 5),
everything else fails in conversion. -/
def envGridOver : Nat → ImgEnv := fun i =>
  if i = 1 then .pages 1 7 else .convFail

/-- Concrete grid environment: every attempt fails in conversion. -/
def envGridAllFail : Nat → ImgEnv := fun _ => .convFail

/-- Concrete grid environment: every attempt converts zero pages. -/
def envGridZeroPages : Nat → ImgEnv := fun _ => .pages 0 0

attribute [local semireducible] Rat.mul Rat.inv Rat.add Rat.sub

theorem fsSize_write_self (fs : FS) (p : FPath) (s : ℚ) :
    fsSize (fsWrite fs p s) p = some s := by
  simp [fsWrite, fsSize]

theorem fsSize_remove_ne (fs : FS) {p q : FPath} (h : q ≠ p) :
    fsSize (fsRemove fs p) q = fsSize fs q := by
  induction fs with
  | nil => rfl
  | cons e fs ih =>
    obtain ⟨r, s⟩ := e
    by_cases hr : r = p
    · subst hr
      simp [fsRemove, fsSize, Ne.symm h, ih]
    · by_cases hq : r = q
      · subst hq
        simp [fsRemove, fsSize, hr]
      · simp [fsRemove, fsSize, hr, hq, ih]

theorem fsSize_write_ne (fs : FS) {p q : FPath} (s : ℚ) (h : q ≠ p) :
    fsSize (fsWrite fs p s) q = fsSize fs q := by
  simp [fsWrite, fsSize, Ne.symm h, fsSize_remove_ne fs h]

theorem fsSize_remove_self (fs : FS) (p : FPath) :
    fsSize (fsRemove fs p) p = none := by
  induction fs with
  | nil => rfl
  | cons e fs ih =>
    obtain ⟨r, s⟩ := e
    by_cases hr : r = p
    · simp [fsRemove, hr, ih]
    · simp [fsRemove, fsSize, hr, ih]

/-- C1.  Refuted on the code: with input 12 MB and target 5 MB, the first
catalog entry completes and produces a 4.8 MB candidate — inside the
tolerance band `[5 - 0.05*5, 5] = [4.75, 5]` — yet the search does not
stop there and return it: the candidate is written to `output_path` while
the loop inspects the never-written `*.tmp.pdf` path, so the run ignores
it, exhausts the catalog and raises, leaving the in-band file unpromoted
at the output path. -/
theorem strategy_inband_candidate_not_accepted :
    ((5 : ℚ) - 5 * (5 / 100) ≤ 24 / 5 ∧ (24 / 5 : ℚ) ≤ 5) ∧
    (compress_to_target_size 5 [STrial.completes (some (24 / 5))]
      [(FPath.input, 12)]).outcome = Outcome.noViableResult ∧
    (compress_to_target_size 5 [STrial.completes (some (24 / 5))]
      [(FPath.input, 12)]).attempts = 1 ∧
    fsSize (compress_to_target_size 5 [STrial.completes (some (24 / 5))]
      [(FPath.input, 12)]).fs FPath.output = some (24 / 5) := by
  decide

/-- C3.  Refuted on the code: with input 12 MB and target 5 MB, two
catalog entries complete with sizes 6 MB then 7 MB (both successful, none
in the band `[4.75, 5]`), so the claim requires a final output of the
minimum size 6 MB.  The code promotes nothing — `best_result` is never
set because the candidates sit at `output_path` while the loop inspects
`*.tmp.pdf` — and raises, with the *last* (larger) candidate left at the
output path. -/
theorem strategy_best_effort_min_not_promoted :
    (compress_to_target_size 5
      [STrial.completes (some 6), STrial.completes (some 7)]
      [(FPath.input, 12)]).outcome = Outcome.noViableResult ∧
    (compress_to_target_size 5
      [STrial.completes (some 6), STrial.completes (some 7)]
      [(FPath.input, 12)]).bestIdx = none ∧
    fsSize (compress_to_target_size 5
      [STrial.completes (some 6), STrial.completes (some 7)]
      [(FPath.input, 12)]).fs FPath.output = some 7 := by
  decide

/-- C5.  Refuted on the code: with input 12 MB and target 5 MB, two
catalog entries complete with sizes 8 MB then 6.5 MB.  The call raises
(so nothing is chosen), yet the 6.5 MB candidate written by the second
trial survives at the output path — an intermediate candidate that was
not deleted before the call returned. -/
theorem strategy_unchosen_candidate_survives_failure :
    (compress_to_target_size 5
      [STrial.completes (some 8), STrial.completes (some (13 / 2))]
      [(FPath.input, 12)]).outcome = Outcome.noViableResult ∧
    fsExists (compress_to_target_size 5
      [STrial.completes (some 8), STrial.completes (some (13 / 2))]
      [(FPath.input, 12)]).fs FPath.output = true ∧
    fsSize (compress_to_target_size 5
      [STrial.completes (some 8), STrial.completes (some (13 / 2))]
      [(FPath.input, 12)]).fs FPath.output = some (13 / 2) := by
  decide

/-- C7.  Refuted on the code: with input 12 MB and target 5 MB, the first
catalog entry completes with 5.5 MB `<= 5 * 1.10`, so per the claim it
should be recorded as the new best and the loop should break after one
entry.  In the run, no trial is ever recorded as a best (the best-update
branch reads the never-written `*.tmp.pdf` path), and the loop runs
through all three entries. -/
theorem strategy_close_best_does_not_stop_loop :
    ((11 / 2 : ℚ) ≤ 5 * (11 / 10)) ∧
    (compress_to_target_size 5
      [STrial.completes (some (11 / 2)), STrial.completes (some 10),
       STrial.completes (some 10)]
      [(FPath.input, 12)]).attempts = 3 ∧
    (compress_to_target_size 5
      [STrial.completes (some (11 / 2)), STrial.completes (some 10),
       STrial.completes (some 10)]
      [(FPath.input, 12)]).bestIdx = none ∧
    (compress_to_target_size 5
      [STrial.completes (some (11 / 2)), STrial.completes (some 10),
       STrial.completes (some 10)]
      [(FPath.input, 12)]).outcome = Outcome.noViableResult := by
  decide

/-- C8.  Partially refuted on the code: with input 12 MB and target 5 MB,
the first catalog entry raises after partially writing 3 MB at the
output path.  The failure is indeed caught at the trial boundary and the
search continues with the next entry (both entries are attempted) and
terminates only with `noViableResult` — but the trial's partial artifact
is *not* discarded: the handler unlinks the `*.tmp.pdf` path, while the
partial file sits at `output_path` and survives the whole call. -/
theorem strategy_trial_failure_absorbed_artifact_kept :
    (compress_to_target_size 5
      [STrial.raises (some 3), STrial.completes none]
      [(FPath.input, 12)]).attempts = 2 ∧
    (compress_to_target_size 5
      [STrial.raises (some 3), STrial.completes none]
      [(FPath.input, 12)]).outcome = Outcome.noViableResult ∧
    fsSize (compress_to_target_size 5
      [STrial.raises (some 3), STrial.completes none]
      [(FPath.input, 12)]).fs FPath.output = some 3 := by
  decide

/-- C4.  Confirmed: whenever the input file exists and its size is at
most the target, both search operations return the input path unchanged,
perform zero trials (`attempts = 0`), and leave the output directory
untouched; the check precedes every transform invocation. -/
theorem fast_path_returns_input_no_transforms (target isz : ℚ)
    (trials : List STrial) (env : Nat → ImgEnv) (fs : FS)
    (hin : fsSize fs .input = some isz) (hle : isz ≤ target) :
    compress_to_target_size target trials fs
      = ⟨fs, .returned .input, 0, none, none⟩ ∧
    compress_with_multiple_attempts_image_only target env fs
      = ⟨fs, .returned .input, 0, [], none, 0, []⟩ := by
  unfold compress_to_target_size compress_with_multiple_attempts_image_only
    gridRunWith
  rw [hin]
  simp [hle]

/-- Witness for C4 at input size 3 MB and target 5 MB. -/
theorem fast_path_returns_input_no_transforms_witness :
    compress_to_target_size 5 [STrial.completes (some 2)] [(FPath.input, 3)]
      = ⟨[(FPath.input, 3)], .returned .input, 0, none, none⟩ ∧
    compress_with_multiple_attempts_image_only 5 envGridAllFail
      [(FPath.input, 3)]
      = ⟨[(FPath.input, 3)], .returned .input, 0, [], none, 0, []⟩ :=
  fast_path_returns_input_no_transforms 5 3 [STrial.completes (some 2)]
    envGridAllFail [(FPath.input, 3)] (by decide) (by decide)

/-- C10.  Confirmed: `compress_pdf_images` returns `True` even when the
input converts to zero page images, writing nothing at the output path;
and the grid loop's guard `success and temp_output_path.exists()`
(line 329) therefore treats such a trial as failed — with a zero-page
trial (and no stale file at its candidate path) the loop records no
candidate and changes nothing but the iteration count. -/
theorem images_zero_pages_success_no_output :
    (∀ (s : ℚ) (fs : FS) (out : FPath),
      compress_pdf_images (ImgEnv.pages 0 s) fs out = (true, fs)) ∧
    (∀ (target tol : ℚ) (env : Nat → ImgEnv) (n : Nat) (wq : Nat × Nat)
      (st : GState) (s : ℚ), env n = ImgEnv.pages 0 s →
      fsExists st.fs (FPath.attempt n) = false →
      gridStep target tol env n wq st
        = { st with attempts := st.attempts + 1 }) := by
  constructor
  · intro s fs out
    rfl
  · intro target tol env n wq st s henv hex
    unfold gridStep
    rw [henv]
    simp [compress_pdf_images, hex]

/-- Witness for C10: a zero-page conversion on an empty directory. -/
theorem images_zero_pages_success_no_output_witness :
    compress_pdf_images (ImgEnv.pages 0 0) [] FPath.output = (true, []) ∧
    gridStep 5 (1 / 10) envGridZeroPages 1 (2000, 100) ⟨[], [], none, 0, [], 0⟩
      = ⟨[], [], none, 0, [], 1⟩ :=
  ⟨images_zero_pages_success_no_output.1 0 [] FPath.output,
   images_zero_pages_success_no_output.2 5 (1 / 10) envGridZeroPages 1
     (2000, 100) ⟨[], [], none, 0, [], 0⟩ 0 rfl rfl⟩

theorem gridStep_attempts (t tol : ℚ) (env : Nat → ImgEnv) (n : Nat)
    (wq : Nat × Nat) (st : GState) :
    (gridStep t tol env n wq st).attempts = st.attempts + 1 := by
  unfold gridStep
  dsimp only
  split
  · split
    · split <;> rfl
    · rfl
  · rfl

theorem gridLoop_attempts (t tol : ℚ) (env : Nat → ImgEnv) :
    ∀ (ps : List (Nat × Nat)) (n : Nat) (st : GState),
    (gridLoop t tol env n ps st).attempts = st.attempts + ps.length := by
  intro ps
  induction ps with
  | nil => intro n st; rfl
  | cons wq ps ih =>
    intro n st
    show (gridLoop t tol env (n + 1) ps (gridStep t tol env n wq st)).attempts = _
    rw [ih, gridStep_attempts]
    simp [List.length_cons]
    omega

theorem gridFinish_attempts (st : GState) :
    (gridFinish st).attempts = st.attempts := by
  unfold gridFinish
  cases st.bestIdx <;> rfl

theorem gridStep_core (t tol : ℚ) (env : Nat → ImgEnv) (n : Nat)
    (wq : Nat × Nat) (st : GState) :
    stripSt (gridStep t tol env n wq st) = stepCore t env n wq (stripSt st) := by
  unfold gridStep stepCore stripSt
  dsimp only
  split
  · split
    · split <;> rfl
    · rfl
  · rfl

theorem gridLoop_strip (t t1 t2 : ℚ) (env : Nat → ImgEnv) :
    ∀ (ps : List (Nat × Nat)) (n : Nat) (st1 st2 : GState),
    stripSt st1 = stripSt st2 →
    stripSt (gridLoop t t1 env n ps st1) = stripSt (gridLoop t t2 env n ps st2) := by
  intro ps
  induction ps with
  | nil => intro n st1 st2 h; exact h
  | cons wq ps ih =>
    intro n st1 st2 h
    show stripSt (gridLoop t t1 env (n + 1) ps (gridStep t t1 env n wq st1)) = _
    apply ih
    rw [gridStep_core, gridStep_core, h]

theorem gridFinish_strip (st1 st2 : GState) (h : stripSt st1 = stripSt st2) :
    gridStrip (gridFinish st1) = gridStrip (gridFinish st2) := by
  have hfs : st1.fs = st2.fs := congrArg GCore.fs h
  have hcr : st1.created = st2.created := congrArg GCore.created h
  have hbi : st1.bestIdx = st2.bestIdx := congrArg GCore.bestIdx h
  have hbs : st1.bestSize = st2.bestSize := congrArg GCore.bestSize h
  have hat : st1.attempts = st2.attempts := congrArg GCore.attempts h
  unfold gridFinish gridStrip
  rw [hfs, hcr, hbi, hbs, hat]
  cases st2.bestIdx <;> rfl

/-- C9.  Confirmed: whenever the grid loop runs (input present and larger
than the target), it performs exactly one trial per entry of the fixed
36-entry parameter table — no measured size causes an early exit — and
the run's filesystem, outcome, recorded candidates, promoted best and
iteration count are identical for *any* value of the 2% tolerance: the
`target - tolerance <= size` test only selects log messages. -/
theorem grid_evaluates_all_params_tolerance_advisory (env : Nat → ImgEnv)
    (fs : FS) (isz target t1 t2 : ℚ)
    (hin : fsSize fs .input = some isz) (hgt : target < isz) :
    (compress_with_multiple_attempts_image_only target env fs).attempts
      = compression_params.length ∧
    gridStrip (gridRunWith target t1 env fs)
      = gridStrip (gridRunWith target t2 env fs) := by
  have hnle : ¬ isz ≤ target := not_le.mpr hgt
  constructor
  · unfold compress_with_multiple_attempts_image_only gridRunWith
    rw [hin]
    simp only [hnle, if_false]
    rw [gridFinish_attempts, gridLoop_attempts]
    simp
  · unfold gridRunWith
    rw [hin]
    simp only [hnle, if_false]
    exact gridFinish_strip _ _ (gridLoop_strip target t1 t2 env _ 1 _ _ rfl)

/-- Witness for C9: an all-failing environment, input 12 MB, target 5 MB,
tolerances 0 and 1. -/
theorem grid_evaluates_all_params_tolerance_advisory_witness :
    (compress_with_multiple_attempts_image_only 5 envGridAllFail
      [(FPath.input, 12)]).attempts = compression_params.length ∧
    gridStrip (gridRunWith 5 0 envGridAllFail [(FPath.input, 12)])
      = gridStrip (gridRunWith 5 1 envGridAllFail [(FPath.input, 12)]) :=
  grid_evaluates_all_params_tolerance_advisory envGridAllFail
    [(FPath.input, 12)] 12 5 0 1 (by decide) (by decide)

theorem attempt_ne_of_ne {i n : Nat} (h : i ≠ n) :
    FPath.attempt i ≠ FPath.attempt n := by
  simp [h]

theorem gridLoop_spec (t tol : ℚ) (env : Nat → ImgEnv) :
    ∀ (ps : List (Nat × Nat)) (n : Nat) (st : GState),
    (∀ i, n ≤ i → fsSize st.fs (.attempt i) = none) →
    fsSize st.fs .output = none →
    (∀ j, st.bestIdx = some j →
      j < n ∧ fsSize st.fs (.attempt j) = some st.bestSize) →
    (gridLoop t tol env n ps st).created = st.created ++ recFrom env n ps ∧
    ((gridLoop t tol env n ps st).bestIdx, (gridLoop t tol env n ps st).bestSize)
      = bestFold t (recFrom env n ps) (st.bestIdx, st.bestSize) ∧
    fsSize (gridLoop t tol env n ps st).fs .output = none ∧
    (∀ j, (gridLoop t tol env n ps st).bestIdx = some j →
      fsSize (gridLoop t tol env n ps st).fs (.attempt j)
        = some (gridLoop t tol env n ps st).bestSize) := by
  intro ps
  induction ps with
  | nil =>
    intro n st hfree hout hbest
    refine ⟨by simp [gridLoop, recFrom], by simp [gridLoop, recFrom, bestFold],
      hout, ?_⟩
    intro j hj
    exact (hbest j hj).2
  | cons wq ps ih =>
    intro n st hfree hout hbest
    simp only [gridLoop]
    rcases henv : env n with ⟨k, s⟩ | _ | w
    · cases k with
      | zero =>
        have hstep : gridStep t tol env n wq st
            = { st with attempts := st.attempts + 1 } := by
          unfold gridStep
          rw [henv]
          simp [compress_pdf_images, fsExists, hfree n le_rfl]
        have hrec : recFrom env n (wq :: ps) = recFrom env (n + 1) ps := by
          simp only [recFrom, henv]
        rw [hstep, hrec]
        exact ih (n + 1) _ (fun i hi => hfree i (Nat.le_of_succ_le hi)) hout
          (fun j hj => ⟨Nat.lt_succ_of_lt (hbest j hj).1, (hbest j hj).2⟩)
      | succ k =>
        have hw : fsSize (fsWrite st.fs (.attempt n) s) (.attempt n) = some s :=
          fsSize_write_self st.fs (.attempt n) s
        have hrec : recFrom env n (wq :: ps)
            = ⟨n, s, wq.1, wq.2⟩ :: recFrom env (n + 1) ps := by
          simp only [recFrom, henv]
        have hfree1 : ∀ i, n + 1 ≤ i →
            fsSize (fsWrite st.fs (.attempt n) s) (.attempt i) = none := by
          intro i hi
          rw [fsSize_write_ne st.fs s (attempt_ne_of_ne (by omega))]
          exact hfree i (by omega)
        have hout1 : fsSize (fsWrite st.fs (.attempt n) s) .output = none := by
          rw [fsSize_write_ne st.fs s (by simp)]
          exact hout
        by_cases hb : s ≤ t ∧ st.bestSize < s
        · have hstep : gridStep t tol env n wq st
              = ⟨fsWrite st.fs (.attempt n) s,
                 st.created ++ [⟨n, s, wq.1, wq.2⟩], some n, s,
                 if t - tol ≤ s then st.closeLog ++ [n] else st.closeLog,
                 st.attempts + 1⟩ := by
            unfold gridStep
            rw [henv]
            simp only [compress_pdf_images, fsExists, hw, Option.isSome_some,
              Bool.true_and, eq_self_iff_true, if_true, Option.getD_some,
              if_pos hb]
            split <;> rfl
          rw [hstep, hrec]
          have h1 := ih (n + 1)
            ⟨fsWrite st.fs (.attempt n) s,
             st.created ++ [⟨n, s, wq.1, wq.2⟩], some n, s,
             if t - tol ≤ s then st.closeLog ++ [n] else st.closeLog,
             st.attempts + 1⟩
            hfree1 hout1
            (by
              intro j hj
              cases hj
              exact ⟨Nat.lt_succ_self n, hw⟩)
          refine ⟨?_, ?_, h1.2.2.1, h1.2.2.2⟩
          · rw [h1.1]
            simp
          · rw [h1.2.1]
            show _ = bestFold t (_ :: _) _
            rw [bestFold]
            have : bestStep t (st.bestIdx, st.bestSize) ⟨n, s, wq.1, wq.2⟩
                = (some n, s) := by
              unfold bestStep
              exact if_pos hb
            rw [this]
        · have hstep : gridStep t tol env n wq st
              = ⟨fsWrite st.fs (.attempt n) s,
                 st.created ++ [⟨n, s, wq.1, wq.2⟩], st.bestIdx, st.bestSize,
                 st.closeLog, st.attempts + 1⟩ := by
            unfold gridStep
            rw [henv]
            simp only [compress_pdf_images, fsExists, hw, Option.isSome_some,
              Bool.true_and, eq_self_iff_true, if_true, Option.getD_some,
              if_neg hb]
          rw [hstep, hrec]
          have h1 := ih (n + 1)
            ⟨fsWrite st.fs (.attempt n) s,
             st.created ++ [⟨n, s, wq.1, wq.2⟩], st.bestIdx, st.bestSize,
             st.closeLog, st.attempts + 1⟩
            hfree1 hout1
            (by
              intro j hj
              have hj' := hbest j hj
              refine ⟨Nat.lt_succ_of_lt hj'.1, ?_⟩
              rw [fsSize_write_ne st.fs s (attempt_ne_of_ne (by omega))]
              exact hj'.2)
          refine ⟨?_, ?_, h1.2.2.1, h1.2.2.2⟩
          · rw [h1.1]
            simp
          · rw [h1.2.1]
            show _ = bestFold t (_ :: _) _
            rw [bestFold]
            have : bestStep t (st.bestIdx, st.bestSize) ⟨n, s, wq.1, wq.2⟩
                = (st.bestIdx, st.bestSize) := by
              unfold bestStep
              exact if_neg hb
            rw [this]
    · have hstep : gridStep t tol env n wq st
          = { st with attempts := st.attempts + 1 } := by
        unfold gridStep
        rw [henv]
        simp [compress_pdf_images]
      have hrec : recFrom env n (wq :: ps) = recFrom env (n + 1) ps := by
        simp only [recFrom, henv]
      rw [hstep, hrec]
      exact ih (n + 1) _ (fun i hi => hfree i (Nat.le_of_succ_le hi)) hout
        (fun j hj => ⟨Nat.lt_succ_of_lt (hbest j hj).1, (hbest j hj).2⟩)
    · cases w with
      | none =>
        have hstep : gridStep t tol env n wq st
            = { st with attempts := st.attempts + 1 } := by
          unfold gridStep
          rw [henv]
          simp [compress_pdf_images]
        have hrec : recFrom env n (wq :: ps) = recFrom env (n + 1) ps := by
          simp only [recFrom, henv]
        rw [hstep, hrec]
        exact ih (n + 1) _ (fun i hi => hfree i (Nat.le_of_succ_le hi)) hout
          (fun j hj => ⟨Nat.lt_succ_of_lt (hbest j hj).1, (hbest j hj).2⟩)
      | some s =>
        have hstep : gridStep t tol env n wq st
            = { st with fs := fsWrite st.fs (.attempt n) s,
                        attempts := st.attempts + 1 } := by
          unfold gridStep
          rw [henv]
          simp [compress_pdf_images]
        have hrec : recFrom env n (wq :: ps) = recFrom env (n + 1) ps := by
          simp only [recFrom, henv]
        rw [hstep, hrec]
        exact ih (n + 1) _
          (fun i hi => by
            rw [fsSize_write_ne st.fs s (attempt_ne_of_ne (by omega))]
            exact hfree i (by omega))
          (by
            rw [fsSize_write_ne st.fs s (by simp)]
            exact hout)
          (fun j hj => by
            have hj' := hbest j hj
            refine ⟨Nat.lt_succ_of_lt hj'.1, ?_⟩
            rw [fsSize_write_ne st.fs s (attempt_ne_of_ne (by omega))]
            exact hj'.2)

theorem bestFold_snd (t : ℚ) :
    ∀ (l : List Candidate) (b : Option Nat × ℚ),
    (bestFold t l b).2 = maxUnderFrom t l b.2 := by
  intro l
  induction l with
  | nil => intro b; rfl
  | cons c cs ih =>
    intro b
    show (bestFold t cs (bestStep t b c)).2
        = maxUnderFrom t cs (if c.size ≤ t then max b.2 c.size else b.2)
    rw [ih]
    congr 1
    unfold bestStep
    by_cases hc1 : c.size ≤ t
    · by_cases hc2 : b.2 < c.size
      · rw [if_pos ⟨hc1, hc2⟩, if_pos hc1, max_eq_right hc2.le]
      · rw [if_pos hc1, max_eq_left (not_lt.mp hc2)]
        have : ¬ (c.size ≤ t ∧ b.2 < c.size) := fun h => hc2 h.2
        rw [if_neg this]
    · have : ¬ (c.size ≤ t ∧ b.2 < c.size) := fun h => hc1 h.1
      rw [if_neg this, if_neg hc1]

theorem le_maxUnderFrom (t : ℚ) :
    ∀ (l : List Candidate) (m : ℚ), m ≤ maxUnderFrom t l m := by
  intro l
  induction l with
  | nil => intro m; exact le_refl m
  | cons c cs ih =>
    intro m
    show m ≤ maxUnderFrom t cs (if c.size ≤ t then max m c.size else m)
    refine le_trans ?_ (ih _)
    split
    · exact le_max_left m c.size
    · exact le_refl m

theorem mem_size_le_maxUnderFrom (t : ℚ) :
    ∀ (l : List Candidate) (m : ℚ) (c : Candidate), c ∈ l → c.size ≤ t →
    c.size ≤ maxUnderFrom t l m := by
  intro l
  induction l with
  | nil => intro m c hc; exact absurd hc (List.not_mem_nil c)
  | cons d ds ih =>
    intro m c hc hle
    rcases List.mem_cons.mp hc with h | h
    · subst h
      show c.size ≤ maxUnderFrom t ds (if c.size ≤ t then max m c.size else m)
      rw [if_pos hle]
      exact le_trans (le_max_right m c.size) (le_maxUnderFrom t ds _)
    · exact ih _ c h hle

theorem maxUnderFrom_attained (t : ℚ) :
    ∀ (l : List Candidate) (m : ℚ),
    maxUnderFrom t l m = m ∨
      ∃ c ∈ l, c.size ≤ t ∧ c.size = maxUnderFrom t l m := by
  intro l
  induction l with
  | nil => intro m; exact Or.inl rfl
  | cons c cs ih =>
    intro m
    have hunf : maxUnderFrom t (c :: cs) m
        = maxUnderFrom t cs (if c.size ≤ t then max m c.size else m) := rfl
    by_cases hc1 : c.size ≤ t
    · rw [hunf, if_pos hc1]
      rcases max_choice m c.size with hm | hm
      · rw [hm]
        rcases ih m with h | ⟨d, hd, hdle, hdeq⟩
        · exact Or.inl h
        · exact Or.inr ⟨d, List.mem_cons_of_mem c hd, hdle, hdeq⟩
      · rw [hm]
        rcases ih c.size with h | ⟨d, hd, hdle, hdeq⟩
        · exact Or.inr ⟨c, List.mem_cons_self c cs, hc1, h.symm⟩
        · exact Or.inr ⟨d, List.mem_cons_of_mem c hd, hdle, hdeq⟩
    · rw [hunf, if_neg hc1]
      rcases ih m with h | ⟨d, hd, hdle, hdeq⟩
      · exact Or.inl h
      · exact Or.inr ⟨d, List.mem_cons_of_mem c hd, hdle, hdeq⟩

theorem find?_ext {α : Type} (p q : α → Bool) :
    ∀ (l : List α), (∀ x ∈ l, p x = q x) → l.find? p = l.find? q := by
  intro l
  induction l with
  | nil => intro h; rfl
  | cons x xs ih =>
    intro h
    have hx := h x (List.mem_cons_self x xs)
    by_cases hp : p x = true
    · rw [List.find?_cons_of_pos xs hp, List.find?_cons_of_pos xs (hx ▸ hp)]
    · rw [List.find?_cons_of_neg xs hp,
        List.find?_cons_of_neg xs (by rw [← hx]; exact hp)]
      exact ih (fun y hy => h y (List.mem_cons_of_mem x hy))

theorem bestFold_fst (t : ℚ) :
    ∀ (l : List Candidate) (b : Option Nat × ℚ),
    (bestFold t l b).1
      = (l.find? fun x => decide (x.size ≤ t) && decide (b.2 < x.size)
          && decide (x.size = maxUnderFrom t l b.2)).elim b.1
          (fun x => some x.idx) := by
  intro l
  induction l with
  | nil => intro b; rfl
  | cons c cs ih =>
    intro b
    have hunf : maxUnderFrom t (c :: cs) b.2
        = maxUnderFrom t cs (if c.size ≤ t then max b.2 c.size else b.2) := rfl
    by_cases hc : c.size ≤ t ∧ b.2 < c.size
    · have hstep : bestStep t b c = (some c.idx, c.size) := if_pos hc
      have hm : (if c.size ≤ t then max b.2 c.size else b.2) = c.size := by
        rw [if_pos hc.1, max_eq_right hc.2.le]
      have hM : maxUnderFrom t (c :: cs) b.2 = maxUnderFrom t cs c.size := by
        rw [hunf, hm]
      by_cases hMc : c.size = maxUnderFrom t cs c.size
      · have hpc : (decide (c.size ≤ t) && decide (b.2 < c.size)
            && decide (c.size = maxUnderFrom t (c :: cs) b.2)) = true := by
          rw [hM, decide_eq_true hc.1, decide_eq_true hc.2,
            decide_eq_true hMc]
          rfl
        rw [List.find?_cons_of_pos cs hpc]
        show (bestFold t cs (bestStep t b c)).1 = some c.idx
        rw [hstep, ih (some c.idx, c.size)]
        have hnone : cs.find? (fun x => decide (x.size ≤ t)
            && decide (c.size < x.size)
            && decide (x.size = maxUnderFrom t cs c.size)) = none := by
          rw [List.find?_eq_none]
          intro x hx hpx
          simp only [Bool.and_eq_true, decide_eq_true_eq] at hpx
          have : x.size = c.size := by rw [hpx.2, ← hMc]
          exact absurd hpx.1.2 (by rw [this]; exact lt_irrefl _)
        rw [show (cs.find? fun x => decide (x.size ≤ t)
            && decide ((some c.idx, c.size).2 < x.size)
            && decide (x.size = maxUnderFrom t cs (some c.idx, c.size).2))
          = cs.find? (fun x => decide (x.size ≤ t)
            && decide (c.size < x.size)
            && decide (x.size = maxUnderFrom t cs c.size)) from rfl, hnone]
        rfl
      · have hlt : c.size < maxUnderFrom t cs c.size :=
          lt_of_le_of_ne (le_maxUnderFrom t cs c.size) hMc
        have hpc : (decide (c.size ≤ t) && decide (b.2 < c.size)
            && decide (c.size = maxUnderFrom t (c :: cs) b.2)) = false := by
          rw [hM]
          simp [hMc]
        rw [List.find?_cons_of_neg cs (by simp [hpc])]
        show (bestFold t cs (bestStep t b c)).1 = _
        rw [hstep, ih (some c.idx, c.size)]
        have hfind : (cs.find? fun x => decide (x.size ≤ t)
              && decide (b.2 < x.size)
              && decide (x.size = maxUnderFrom t (c :: cs) b.2))
            = cs.find? (fun x => decide (x.size ≤ t)
              && decide (c.size < x.size)
              && decide (x.size = maxUnderFrom t cs c.size)) := by
          apply find?_ext
          intro x hx
          rw [hM]
          by_cases hxM : x.size = maxUnderFrom t cs c.size
          · have h2 : c.size < x.size := by rw [hxM]; exact hlt
            have h1 : b.2 < x.size := hc.2.trans h2
            rw [decide_eq_true h1, decide_eq_true h2]
          · simp [hxM]
        rw [hfind]
        obtain ⟨x, hxmem, hxle, hxeq⟩ :
            ∃ x ∈ cs, x.size ≤ t ∧ x.size = maxUnderFrom t cs c.size := by
          rcases maxUnderFrom_attained t cs c.size with h | h
          · exact absurd h.symm hMc
          · exact h
        have hne : (cs.find? fun x => decide (x.size ≤ t)
              && decide (c.size < x.size)
              && decide (x.size = maxUnderFrom t cs c.size)) ≠ none := by
          rw [Ne, List.find?_eq_none]
          push_neg
          refine ⟨x, hxmem, ?_⟩
          have h2 : c.size < x.size := by rw [hxeq]; exact hlt
          rw [decide_eq_true hxle, decide_eq_true h2, decide_eq_true hxeq]
          rfl
        rcases Option.ne_none_iff_exists'.mp hne with ⟨y, hy⟩
        rw [hy]
        rfl
    · have hstep : bestStep t b c = b := if_neg hc
      have hm : (if c.size ≤ t then max b.2 c.size else b.2) = b.2 := by
        by_cases hc1 : c.size ≤ t
        · rw [if_pos hc1]
          have hc2 : ¬ b.2 < c.size := fun h => hc ⟨hc1, h⟩
          exact max_eq_left (not_lt.mp hc2)
        · exact if_neg hc1
      have hM : maxUnderFrom t (c :: cs) b.2 = maxUnderFrom t cs b.2 := by
        rw [hunf, hm]
      have hpc : (decide (c.size ≤ t) && decide (b.2 < c.size)
          && decide (c.size = maxUnderFrom t (c :: cs) b.2)) = false := by
        by_cases hc1 : c.size ≤ t
        · have hc2 : ¬ b.2 < c.size := fun h => hc ⟨hc1, h⟩
          simp [hc2]
        · simp [hc1]
      rw [List.find?_cons_of_neg cs (by simp [hpc])]
      show (bestFold t cs (bestStep t b c)).1 = _
      rw [hstep, ih b, hM]

theorem bestFold_init (t : ℚ) (l : List Candidate)
    (hpos : ∀ c ∈ l, 0 < c.size) (hex : ∃ c ∈ l, c.size ≤ t) :
    bestFold t l (none, 0) = (firstAtMax t l, maxUnder t l) ∧
    ∃ j, firstAtMax t l = some j := by
  obtain ⟨c0, hc0, hc0le⟩ := hex
  have hM0 : 0 < maxUnder t l :=
    lt_of_lt_of_le (hpos c0 hc0) (mem_size_le_maxUnderFrom t l 0 c0 hc0 hc0le)
  have h2 : (bestFold t l (none, 0)).2 = maxUnder t l := bestFold_snd t l (none, 0)
  have h1 : (bestFold t l (none, 0)).1
      = (l.find? fun x => decide (x.size ≤ t) && decide ((0 : ℚ) < x.size)
          && decide (x.size = maxUnderFrom t l 0)).elim none
          (fun x => some x.idx) := bestFold_fst t l (none, 0)
  have hext : (l.find? fun x => decide (x.size ≤ t) && decide ((0 : ℚ) < x.size)
        && decide (x.size = maxUnderFrom t l 0))
      = (l.find? fun x => decide (x.size ≤ t)
        && decide (x.size = maxUnder t l)) := by
    apply find?_ext
    intro x hx
    by_cases hxM : x.size = maxUnder t l
    · have hx0 : (0 : ℚ) < x.size := by rw [hxM]; exact hM0
      have hxM' : x.size = maxUnderFrom t l 0 := hxM
      rw [decide_eq_true hx0, decide_eq_true hxM, decide_eq_true hxM']
      simp
    · have hxM' : ¬ x.size = maxUnderFrom t l 0 := hxM
      rw [decide_eq_false hxM, decide_eq_false hxM']
      simp
  rw [hext] at h1
  obtain ⟨x, hxmem, hxle, hxeq⟩ : ∃ x ∈ l, x.size ≤ t ∧ x.size = maxUnder t l := by
    rcases maxUnderFrom_attained t l 0 with h | h
    · have : maxUnder t l = 0 := h
      rw [this] at hM0
      exact absurd hM0 (lt_irrefl 0)
    · exact h
  have hne : (l.find? fun x => decide (x.size ≤ t)
      && decide (x.size = maxUnder t l)) ≠ none := by
    rw [Ne, List.find?_eq_none]
    push_neg
    refine ⟨x, hxmem, ?_⟩
    rw [decide_eq_true hxle, decide_eq_true hxeq]
    rfl
  rcases Option.ne_none_iff_exists'.mp hne with ⟨y, hy⟩
  have hfam : firstAtMax t l = some y.idx := by
    rw [firstAtMax, hy]
    rfl
  constructor
  · have h1' : (bestFold t l (none, 0)).1 = firstAtMax t l := by
      rw [h1, hy, hfam]
      rfl
    exact Prod.ext h1' h2
  · exact ⟨y.idx, hfam⟩

theorem bestFold_keep (t : ℚ) :
    ∀ (l : List Candidate) (b : Option Nat × ℚ),
    (∀ c ∈ l, ¬ c.size ≤ t) → bestFold t l b = b := by
  intro l
  induction l with
  | nil => intro b h; rfl
  | cons c cs ih =>
    intro b h
    show bestFold t cs (bestStep t b c) = b
    have : bestStep t b c = b :=
      if_neg fun hx => h c (List.mem_cons_self c cs) hx.1
    rw [this]
    exact ih b fun d hd => h d (List.mem_cons_of_mem c hd)

theorem fsSize_removeOthers_output (j : Nat) :
    ∀ (l : List Candidate) (fs : FS),
    fsSize (removeOthers j l fs) FPath.output = fsSize fs FPath.output := by
  intro l
  induction l with
  | nil => intro fs; rfl
  | cons c cs ih =>
    intro fs
    show fsSize (removeOthers j cs _) FPath.output = _
    rw [ih]
    split
    · exact fsSize_remove_ne fs (by simp)
    · rfl

theorem fsSize_removeAll_output :
    ∀ (l : List Candidate) (fs : FS),
    fsSize (removeAll l fs) FPath.output = fsSize fs FPath.output := by
  intro l
  induction l with
  | nil => intro fs; rfl
  | cons c cs ih =>
    intro fs
    show fsSize (removeAll cs _) FPath.output = _
    rw [ih]
    split
    · exact fsSize_remove_ne fs (by simp)
    · rfl

theorem fsSize_removeAll_none (p : FPath) :
    ∀ (l : List Candidate) (fs : FS),
    fsSize fs p = none → fsSize (removeAll l fs) p = none := by
  intro l
  induction l with
  | nil => intro fs h; exact h
  | cons c cs ih =>
    intro fs h
    show fsSize (removeAll cs _) p = none
    apply ih
    split
    · by_cases hp : p = FPath.attempt c.idx
      · rw [hp]
        exact fsSize_remove_self fs (FPath.attempt c.idx)
      · rw [fsSize_remove_ne fs hp]
        exact h
    · exact h

theorem removeAll_clears :
    ∀ (l : List Candidate) (fs : FS) (c : Candidate), c ∈ l →
    fsSize (removeAll l fs) (FPath.attempt c.idx) = none := by
  intro l
  induction l with
  | nil => intro fs c hc; exact absurd hc (List.not_mem_nil c)
  | cons d ds ih =>
    intro fs c hc
    rcases List.mem_cons.mp hc with h | h
    · subst h
      show fsSize (removeAll ds _) (FPath.attempt c.idx) = none
      apply fsSize_removeAll_none
      split
      · exact fsSize_remove_self fs (FPath.attempt c.idx)
      · rename_i hex
        rw [fsExists] at hex
        cases hsz : fsSize fs (FPath.attempt c.idx) with
        | none => rfl
        | some s => rw [hsz] at hex; simp at hex
    · exact ih _ c h

theorem mem_insertDesc (c x : Candidate) :
    ∀ (l : List Candidate), x ∈ insertDesc c l ↔ x = c ∨ x ∈ l := by
  intro l
  induction l with
  | nil => simp [insertDesc]
  | cons d ds ih =>
    show x ∈ (if d.size < c.size then c :: d :: ds else d :: insertDesc c ds)
      ↔ _
    split
    · simp
    · rw [List.mem_cons, ih, List.mem_cons]
      tauto

theorem mem_sortDesc (x : Candidate) :
    ∀ (l : List Candidate), x ∈ sortDesc l ↔ x ∈ l := by
  intro l
  induction l with
  | nil => simp [sortDesc]
  | cons c cs ih =>
    show x ∈ insertDesc c (sortDesc cs) ↔ _
    rw [mem_insertDesc, ih, List.mem_cons]

theorem gridRunWith_eq (target tol : ℚ) (env : Nat → ImgEnv) (fs : FS)
    (isz : ℚ) (hin : fsSize fs .input = some isz) (hgt : target < isz) :
    gridRunWith target tol env fs
      = gridFinish (gridLoop target tol env 1 compression_params
          ⟨fs, [], none, 0, [], 0⟩) := by
  unfold gridRunWith
  rw [hin]
  dsimp only
  rw [if_neg (not_le.mpr hgt)]

/-- C2.  Confirmed (for runs that reach the loop, on a fresh output
directory, with every recorded candidate of positive size — a recorded
candidate is a written PDF, hence non-empty): whenever at least one
successful trial is at most the target, the grid search promotes a final
output whose size is the *maximum* recorded size not exceeding the
target, and the kept candidate is the *first* one in grid order attaining
that maximum (`best_size` starts at `0` and is only beaten strictly, so
ties keep the earlier candidate). -/
theorem grid_promotes_max_under_target (target isz : ℚ) (env : Nat → ImgEnv)
    (hgt : target < isz)
    (hpos : ∀ c ∈ recordedGrid env, 0 < c.size)
    (hex : ∃ c ∈ recordedGrid env, c.size ≤ target) :
    (compress_with_multiple_attempts_image_only target env
      [(FPath.input, isz)]).outcome = Outcome.returned FPath.output ∧
    fsSize (compress_with_multiple_attempts_image_only target env
      [(FPath.input, isz)]).fs FPath.output
      = some (maxUnder target (recordedGrid env)) ∧
    (compress_with_multiple_attempts_image_only target env
      [(FPath.input, isz)]).bestIdx = firstAtMax target (recordedGrid env) ∧
    (compress_with_multiple_attempts_image_only target env
      [(FPath.input, isz)]).bestSize = maxUnder target (recordedGrid env) := by
  have hin : fsSize [(FPath.input, isz)] FPath.input = some isz := by
    simp [fsSize]
  have hrun : compress_with_multiple_attempts_image_only target env
      [(FPath.input, isz)]
      = gridFinish (gridLoop target (target * (2 / 100)) env 1
          compression_params ⟨[(FPath.input, isz)], [], none, 0, [], 0⟩) :=
    gridRunWith_eq target (target * (2 / 100)) env [(FPath.input, isz)] isz
      hin hgt
  obtain ⟨hcre, hbp, hofs, hbfs⟩ := gridLoop_spec target (target * (2 / 100))
    env compression_params 1 ⟨[(FPath.input, isz)], [], none, 0, [], 0⟩
    (fun i hi => by simp [fsSize]) (by simp [fsSize])
    (fun j hj => by simp at hj)
  obtain ⟨hbf, j, hj⟩ := bestFold_init target (recordedGrid env) hpos hex
  have hpair : ((gridLoop target (target * (2 / 100)) env 1 compression_params
        ⟨[(FPath.input, isz)], [], none, 0, [], 0⟩).bestIdx,
      (gridLoop target (target * (2 / 100)) env 1 compression_params
        ⟨[(FPath.input, isz)], [], none, 0, [], 0⟩).bestSize)
      = (firstAtMax target (recordedGrid env),
         maxUnder target (recordedGrid env)) := by
    rw [hbp]
    exact hbf
  have hbi := congrArg Prod.fst hpair
  have hbs := congrArg Prod.snd hpair
  dsimp only at hbi hbs
  have hjj : (gridLoop target (target * (2 / 100)) env 1 compression_params
      ⟨[(FPath.input, isz)], [], none, 0, [], 0⟩).bestIdx = some j := by
    rw [hbi, hj]
  have hattempt := hbfs j hjj
  rw [hrun]
  unfold gridFinish
  rw [hjj]
  dsimp only
  refine ⟨rfl, ?_, ?_, ?_⟩
  · rw [fsSize_removeOthers_output]
    unfold fsMove
    rw [hattempt, fsSize_write_self, hbs]
  · rw [← hj]
  · exact hbs

/-- Witness for C2: target 5 MB, input 12 MB, attempts 1-3 succeed with
sizes 6, 4, 4 MB; the promoted output is 4 MB, the first of the two tied
candidates (attempt 2). -/
theorem grid_promotes_max_under_target_witness :
    (compress_with_multiple_attempts_image_only 5 envGridTie
      [(FPath.input, 12)]).outcome = Outcome.returned FPath.output ∧
    fsSize (compress_with_multiple_attempts_image_only 5 envGridTie
      [(FPath.input, 12)]).fs FPath.output
      = some (maxUnder 5 (recordedGrid envGridTie)) ∧
    (compress_with_multiple_attempts_image_only 5 envGridTie
      [(FPath.input, 12)]).bestIdx = firstAtMax 5 (recordedGrid envGridTie) ∧
    (compress_with_multiple_attempts_image_only 5 envGridTie
      [(FPath.input, 12)]).bestSize = maxUnder 5 (recordedGrid envGridTie) :=
  grid_promotes_max_under_target 5 12 envGridTie (by decide) (by decide)
    (by decide)

/-- C6 counterexample.  Target 5 MB, input 12 MB: attempt 1 succeeds at
7 MB (over target), attempt 2 fails during its save leaving a 3 MB
partial file at its candidate path.  No successful candidate is at most
the target, and the search does raise with no final output — but it does
*not* delete every candidate file it created: the failure-path cleanup
iterates only over `created_files` (successful trials), so attempt 2's
3 MB file survives the call. -/
theorem grid_failed_trial_artifact_not_deleted :
    (∀ c ∈ recordedGrid envGridLeftover, ¬ c.size ≤ 5) ∧
    (compress_with_multiple_attempts_image_only 5 envGridLeftover
      [(FPath.input, 12)]).outcome = Outcome.noViableResult ∧
    fsSize (compress_with_multiple_attempts_image_only 5 envGridLeftover
      [(FPath.input, 12)]).fs (FPath.attempt 2) = some 3 := by
  decide

/-- C6 as amended.  When no *recorded* candidate (successful trial with
an existing file) is at most the target, the grid search raises
`noViableResult`, produces no file at the final output path, and deletes
every recorded candidate file; files left behind by failed transform
invocations are not tracked and not deleted. -/
theorem grid_no_fallback_deletes_recorded (target isz : ℚ)
    (env : Nat → ImgEnv) (hgt : target < isz)
    (hover : ∀ c ∈ recordedGrid env, target < c.size) :
    (compress_with_multiple_attempts_image_only target env
      [(FPath.input, isz)]).outcome = Outcome.noViableResult ∧
    fsSize (compress_with_multiple_attempts_image_only target env
      [(FPath.input, isz)]).fs FPath.output = none ∧
    ∀ c ∈ recordedGrid env,
      fsSize (compress_with_multiple_attempts_image_only target env
        [(FPath.input, isz)]).fs (FPath.attempt c.idx) = none := by
  have hin : fsSize [(FPath.input, isz)] FPath.input = some isz := by
    simp [fsSize]
  have hrun : compress_with_multiple_attempts_image_only target env
      [(FPath.input, isz)]
      = gridFinish (gridLoop target (target * (2 / 100)) env 1
          compression_params ⟨[(FPath.input, isz)], [], none, 0, [], 0⟩) :=
    gridRunWith_eq target (target * (2 / 100)) env [(FPath.input, isz)] isz
      hin hgt
  obtain ⟨hcre, hbp, hofs, hbfs⟩ := gridLoop_spec target (target * (2 / 100))
    env compression_params 1 ⟨[(FPath.input, isz)], [], none, 0, [], 0⟩
    (fun i hi => by simp [fsSize]) (by simp [fsSize])
    (fun j hj => by simp at hj)
  have hkeep : bestFold target (recordedGrid env) (none, 0) = (none, 0) :=
    bestFold_keep target (recordedGrid env) (none, 0)
      (fun c hc => not_le.mpr (hover c hc))
  have hpair : ((gridLoop target (target * (2 / 100)) env 1 compression_params
        ⟨[(FPath.input, isz)], [], none, 0, [], 0⟩).bestIdx,
      (gridLoop target (target * (2 / 100)) env 1 compression_params
        ⟨[(FPath.input, isz)], [], none, 0, [], 0⟩).bestSize)
      = ((none : Option Nat), (0 : ℚ)) := by
    rw [hbp]
    exact hkeep
  have hbnone := congrArg Prod.fst hpair
  dsimp only at hbnone
  rw [hrun]
  unfold gridFinish
  rw [hbnone]
  dsimp only
  refine ⟨rfl, ?_, ?_⟩
  · rw [fsSize_removeAll_output]
    exact hofs
  · intro c hc
    apply removeAll_clears
    rw [mem_sortDesc, hcre]
    simpa using hc

/-- Witness for the amended C6: the only successful candidate is 7 MB,
over the 5 MB target; the call raises and deletes it. -/
theorem grid_no_fallback_deletes_recorded_witness :
    (compress_with_multiple_attempts_image_only 5 envGridOver
      [(FPath.input, 12)]).outcome = Outcome.noViableResult ∧
    fsSize (compress_with_multiple_attempts_image_only 5 envGridOver
      [(FPath.input, 12)]).fs FPath.output = none ∧
    ∀ c ∈ recordedGrid envGridOver,
      fsSize (compress_with_multiple_attempts_image_only 5 envGridOver
        [(FPath.input, 12)]).fs (FPath.attempt c.idx) = none :=
  grid_no_fallback_deletes_recorded 5 12 envGridOver (by decide) (by decide)
